import Mathlib

/-!
Shallow embedding of the `cargo2port` package resolution and formatting
engine (`src/lib.rs`), together with proofs of its specification's claims.

The data model follows the spec's package record: a package is identified
by its `(name, version, checksum)` triple; sort order is the natural
lexicographic order on `(name, version)` (with the checksum as a final
tiebreaker inside the ordered set, mirroring the derived ordering used by
the `BTreeSet` in the source).
-/

namespace Cargo2port

/-- Semantic-version value: the `major.minor.patch` core of a parsed
version, with a canonical string rendering (`to_string`). -/
structure Version where
  major : Nat
  minor : Nat
  patch : Nat
deriving DecidableEq, Repr

/-- Canonical string rendering of a `Version`, as produced by the
`to_string` call sites in `format_cargo_crates`. -/
def Version.to_string (v : Version) : String :=
  toString v.major ++ "." ++ toString v.minor ++ "." ++ toString v.patch

/-- Lexicographic sort key of a version: `(major, minor, patch)`. -/
def Version.key (v : Version) : Nat ×ₗ Nat ×ₗ Nat :=
  toLex (v.major, toLex (v.minor, v.patch))

instance : LinearOrder Version :=
  LinearOrder.lift' Version.key (by
    intro a b h
    cases a
    cases b
    simpa [Version.key, toLex_inj, Prod.ext_iff] using h)

/-- One package record of a lockfile document: `name`, parsed `version`,
optional `checksum` (`None` marks the lockfile's own self-entry). -/
structure Package where
  name : String
  version : Version
  checksum : Option String
deriving DecidableEq, Repr

/-- Key of the optional checksum inside the package sort key: `None`
orders below every present checksum, as in the source ordering. -/
def chkKey : Option String → WithBot String
  | none => ⊥
  | some c => (c : WithBot String)

/-- Full sort key of a package: lexicographic on
`(name, version, checksum)`. -/
def Package.key (p : Package) : String ×ₗ Version ×ₗ WithBot String :=
  toLex (p.name, toLex (p.version, chkKey p.checksum))

instance : LinearOrder Package :=
  LinearOrder.lift' Package.key (by
    have hchk : Function.Injective chkKey := by
      intro a b h
      cases a <;> cases b <;> simp_all [chkKey]
    intro a b h
    cases a
    cases b
    simp only [Package.key, toLex_inj, Prod.ext_iff] at h
    obtain ⟨h1, h2, h3⟩ := h
    have h4 := hchk h3
    simp_all)

/-- The `(name, version)` part of a package's sort key: the claims' sort
order is the lexicographic order on this key. -/
def nvKey (p : Package) : String ×ₗ Version :=
  toLex (p.name, p.version)

theorem Package.le_def (p q : Package) : p ≤ q ↔ Package.key p ≤ Package.key q :=
  Iff.rfl

theorem Package.lt_def (p q : Package) : p < q ↔ Package.key p < Package.key q :=
  Iff.rfl

/-- Lockfile document: an ordered sequence of package records. -/
structure Lockfile where
  packages : List Package
deriving DecidableEq, Repr

/-- Error type of the crate (payloads of the collaborator-originated
variants abstracted to strings). -/
inductive Error where
  | CargoLock (err : String)
  | Download (err : String)
  | Tar (kind : String)
  | MissingLockfile
  | Spec (spec : String)
deriving DecidableEq, Repr

/-- Insertion into the ordered set of packages, modelling
`BTreeSet::insert`: the set is kept as a strictly sorted list; inserting
an element already present leaves the set unchanged. -/
def btreeInsert (p : Package) : List Package → List Package
  | [] => [p]
  | q :: rest =>
    if p < q then p :: q :: rest
    else if p = q then q :: rest
    else q :: btreeInsert p rest

/-- Body of the resolver's inner loop: skip a package whose checksum is
absent, insert the rest into the ordered set. -/
def insertChecked (set : List Package) (package : Package) : List Package :=
  if package.checksum.isNone then set else btreeInsert package set

/-- The resolver's `packageset` after both loops: every package of every
lockfile, filtered and inserted in input order. -/
def packageSet (lockfiles : List Lockfile) : List Package :=
  lockfiles.foldl (fun set lockfile => lockfile.packages.foldl insertChecked set) []

/-- `resolve_lockfile_packages`: deduplicate the packages of all lockfiles
through the ordered set, then sort the resulting vector. -/
def resolve_lockfile_packages (lockfiles : List Lockfile) : Except Error (List Package) :=
  Except.ok (List.insertionSort (fun p q => p ≤ q) (packageSet lockfiles))

/-- The amount of space always put between name and version in
`AlignmentMode::Justify`, in addition to any calculated amount. -/
def JUSTIFIED_BASE_WIDTH : Nat := 5

inductive AlignmentMode where
  | Normal
  | Maxlen
  | Multiline
  | Justify
deriving DecidableEq, Repr

/-- Rust `format!` left-aligned field `{:<w$}`: pad on the right with
spaces to a minimum width `w`, never truncating. -/
def padRight (s : String) (w : Nat) : String :=
  s ++ String.mk (List.replicate (w - s.length) ' ')

/-- Rust `format!` right-aligned field `{:>w$}`: pad on the left with
spaces to a minimum width `w`, never truncating. -/
def padLeft (s : String) (w : Nat) : String :=
  String.mk (List.replicate (w - s.length) ' ') ++ s

/-- First pass of `AlignmentMode::Maxlen`: the running
`(name_min_width, version_min_width)` maxima over the whole sequence. -/
def maxlenWidths (packages : List Package) : Nat × Nat :=
  packages.foldl
    (fun w package =>
      let name_len := package.name.length
      let version_len := (Version.to_string package.version).length
      (if name_len > w.1 then name_len else w.1,
       if version_len > w.2 then version_len else w.2))
    (0, 0)

/-- First pass of `AlignmentMode::Justify`: the running `package_max_width`
maximum of `name.len() + version.to_string().len()` over the whole
sequence. -/
def package_max_width (packages : List Package) : Nat :=
  packages.foldl
    (fun acc package =>
      let len := package.name.length + (Version.to_string package.version).length
      if len > acc then len else acc)
    0

/-- One continuation line of the `cargo.crates` block (the `match mode`
inside the formatter's loop), given the widths of the first pass. -/
def formatLine (mode : AlignmentMode) (name_min_width version_min_width pkg_max_width : Nat)
    (package : Package) (checksum : String) : String :=
  match mode with
  | AlignmentMode.Maxlen =>
    "    " ++ padRight package.name name_min_width ++ "  " ++
      padRight (Version.to_string package.version) version_min_width ++ "  " ++ checksum
  | AlignmentMode.Multiline =>
    "    " ++ package.name ++ " \\\n    " ++ Version.to_string package.version ++
      " \\\n    " ++ checksum
  | AlignmentMode.Normal =>
    "    " ++ padRight package.name 28 ++ "  " ++
      padLeft (Version.to_string package.version) 8 ++ "  " ++ checksum
  | AlignmentMode.Justify =>
    let version_len := (Version.to_string package.version).length
    let space_width := pkg_max_width - package.name.length - version_len + JUSTIFIED_BASE_WIDTH
    "    " ++ package.name ++ padRight (" ") space_width ++
      padLeft (Version.to_string package.version) version_len ++ "  " ++ checksum

/-- `format_cargo_crates`: the portfile `cargo.crates` block for a package
vector and alignment mode. Packages without a checksum are skipped. -/
def format_cargo_crates (packages : List Package) (mode : AlignmentMode) : String :=
  let widths := if mode = AlignmentMode.Maxlen then maxlenWidths packages else (0, 0)
  let pkg_max := if mode = AlignmentMode.Justify then package_max_width packages else 0
  packages.foldl
    (fun output package =>
      match package.checksum with
      | some checksum => output ++ " \\\n" ++ formatLine mode widths.1 widths.2 pkg_max package checksum
      | none => output)
    ("cargo.crates")

/-- Rust `str::split` on a single separator character: splitting the empty
string yields one empty part; every occurrence of the separator starts a
new part. -/
def splitOnChar (c : Char) : List Char → List (List Char)
  | [] => [[]]
  | a :: rest =>
    let parts := splitOnChar c rest
    if a = c then [] :: parts
    else
      match parts with
      | [] => [[a]]
      | x :: xs => (a :: x) :: xs

/-- `lockfile_from_crates_io`, parametrized by the remote collaborator
chain (`download_crate` then `extract_cargo_lock_from_pkg` then
`lockfile_from_str`), which the spec treats as one opaque
`fetch_and_extract(name, version)` function. -/
def lockfile_from_crates_io (fetch : String → String → Except Error Lockfile)
    (crate_spec : String) : Except Error Lockfile :=
  let parts := splitOnChar ('@') crate_spec.data
  if h : 2 ≤ parts.length then
    fetch (String.mk (parts.get ⟨0, by omega⟩)) (String.mk (parts.get ⟨1, h⟩))
  else
    Except.error (Error.Spec crate_spec)

/-! ### Resolver lemmas -/

theorem mem_btreeInsert (a p : Package) (s : List Package) :
    a ∈ btreeInsert p s ↔ a = p ∨ a ∈ s := by
  induction s with
  | nil => simp [btreeInsert]
  | cons q rest ih =>
    simp only [btreeInsert]
    by_cases h1 : p < q
    · simp [h1]
    · by_cases h2 : p = q
      · subst h2
        simp [h1]
      · simp [h1, h2, ih]
        tauto

theorem sorted_btreeInsert (p : Package) (s : List Package)
    (hs : s.Sorted (fun a b => a < b)) :
    (btreeInsert p s).Sorted (fun a b => a < b) := by
  induction s with
  | nil => simp [btreeInsert]
  | cons q rest ih =>
    rw [List.sorted_cons] at hs
    obtain ⟨hq, hrest⟩ := hs
    simp only [btreeInsert]
    by_cases h1 : p < q
    · rw [if_pos h1, List.sorted_cons, List.sorted_cons]
      exact ⟨by
        intro b hb
        rcases List.mem_cons.mp hb with hb | hb
        · exact hb ▸ h1
        · exact lt_trans h1 (hq b hb), hq, hrest⟩
    · by_cases h2 : p = q
      · rw [if_neg h1, if_pos h2, List.sorted_cons]
        exact ⟨hq, hrest⟩
      · rw [if_neg h1, if_neg h2, List.sorted_cons]
        refine ⟨?_, ih hrest⟩
        intro b hb
        rcases (mem_btreeInsert b p rest).mp hb with hb | hb
        · exact hb ▸ (lt_of_le_of_ne (not_lt.mp h1) (Ne.symm h2))
        · exact hq b hb

theorem mem_foldl_insertChecked (a : Package) (ps : List Package) :
    ∀ s : List Package, a ∈ ps.foldl insertChecked s ↔
      a ∈ s ∨ (a ∈ ps ∧ a.checksum.isSome) := by
  induction ps with
  | nil => simp
  | cons p rest ih =>
    intro s
    rw [List.foldl_cons, ih]
    unfold insertChecked
    by_cases h : p.checksum.isNone
    · rw [if_pos h]
      constructor
      · rintro (hs | ⟨hm, hc⟩)
        · exact Or.inl hs
        · exact Or.inr ⟨List.mem_cons_of_mem p hm, hc⟩
      · rintro (hs | ⟨hm, hc⟩)
        · exact Or.inl hs
        · rcases List.mem_cons.mp hm with rfl | hm
          · rw [Option.isNone_iff_eq_none] at h
            rw [h] at hc
            simp at hc
          · exact Or.inr ⟨hm, hc⟩
    · rw [if_neg h, mem_btreeInsert]
      have hps : p.checksum.isSome := by
        rcases hc : p.checksum with _ | c
        · exact absurd (Option.isNone_iff_eq_none.mpr hc) h
        · simp [hc]
      constructor
      · rintro ((heq | hs) | ⟨hm, hc⟩)
        · exact Or.inr ⟨by rw [heq]; exact List.mem_cons_self p rest, by rw [heq]; exact hps⟩
        · exact Or.inl hs
        · exact Or.inr ⟨List.mem_cons_of_mem p hm, hc⟩
      · rintro (hs | ⟨hm, hc⟩)
        · exact Or.inl (Or.inr hs)
        · rcases List.mem_cons.mp hm with rfl | hm
          · exact Or.inl (Or.inl rfl)
          · exact Or.inr ⟨hm, hc⟩

theorem sorted_foldl_insertChecked (ps : List Package) :
    ∀ s : List Package, s.Sorted (fun a b => a < b) →
      (ps.foldl insertChecked s).Sorted (fun a b => a < b) := by
  induction ps with
  | nil => exact fun s hs => hs
  | cons p rest ih =>
    intro s hs
    rw [List.foldl_cons]
    refine ih _ ?_
    unfold insertChecked
    by_cases h : p.checksum.isNone
    · rwa [if_pos h]
    · rw [if_neg h]
      exact sorted_btreeInsert p s hs

theorem mem_packageSet (a : Package) (lockfiles : List Lockfile) :
    a ∈ packageSet lockfiles ↔
      ∃ lf ∈ lockfiles, a ∈ lf.packages ∧ a.checksum.isSome := by
  have aux : ∀ (ls : List Lockfile) (s : List Package),
      a ∈ ls.foldl (fun set lockfile => lockfile.packages.foldl insertChecked set) s ↔
        a ∈ s ∨ ∃ lf ∈ ls, a ∈ lf.packages ∧ a.checksum.isSome := by
    intro ls
    induction ls with
    | nil => simp
    | cons lf rest ih =>
      intro s
      rw [List.foldl_cons, ih, mem_foldl_insertChecked]
      simp only [List.mem_cons]
      constructor
      · rintro ((hs | ⟨hm, hc⟩) | ⟨lf2, hlf2, hm, hc⟩)
        · exact Or.inl hs
        · exact Or.inr ⟨lf, Or.inl rfl, hm, hc⟩
        · exact Or.inr ⟨lf2, Or.inr hlf2, hm, hc⟩
      · rintro (hs | ⟨lf2, (rfl | hlf2), hm, hc⟩)
        · exact Or.inl (Or.inl hs)
        · exact Or.inl (Or.inr ⟨hm, hc⟩)
        · exact Or.inr ⟨lf2, hlf2, hm, hc⟩
  rw [packageSet, aux]
  simp

theorem sorted_packageSet (lockfiles : List Lockfile) :
    (packageSet lockfiles).Sorted (fun a b => a < b) := by
  have aux : ∀ (ls : List Lockfile) (s : List Package), s.Sorted (fun a b => a < b) →
      (ls.foldl (fun set lockfile => lockfile.packages.foldl insertChecked set) s).Sorted
        (fun a b => a < b) := by
    intro ls
    induction ls with
    | nil => exact fun s hs => hs
    | cons lf rest ih =>
      intro s hs
      rw [List.foldl_cons]
      exact ih _ (sorted_foldl_insertChecked lf.packages s hs)
  exact aux lockfiles [] (by simp)

theorem resolve_eq_packageSet (lockfiles : List Lockfile) :
    resolve_lockfile_packages lockfiles = Except.ok (packageSet lockfiles) := by
  rw [resolve_lockfile_packages]
  congr 1
  exact List.Sorted.insertionSort_eq
    ((sorted_packageSet lockfiles).imp (fun h => le_of_lt h))

theorem nvKey_mono {p q : Package} (h : p ≤ q) : nvKey p ≤ nvKey q := by
  rw [Package.le_def, Package.key, Package.key, Prod.Lex.le_iff] at h
  rw [nvKey, nvKey, Prod.Lex.le_iff]
  rcases h with h | ⟨h1, h2⟩
  · exact Or.inl h
  · rw [Prod.Lex.le_iff] at h2
    rcases h2 with h2 | ⟨h2, _⟩
    · exact Or.inr ⟨h1, le_of_lt h2⟩
    · exact Or.inr ⟨h1, le_of_eq h2⟩

/-- C1: the resolved sequence is free of duplicate `(name, version, checksum)`
triples: any two distinct positions of the output disagree on at least one
of the three fields, whichever documents the records came from. -/
theorem resolve_no_duplicate_triples (lockfiles : List Lockfile) :
    ∃ out, resolve_lockfile_packages lockfiles = Except.ok out ∧
      out.Pairwise (fun p q =>
        ¬(p.name = q.name ∧ p.version = q.version ∧ p.checksum = q.checksum)) := by
  refine ⟨packageSet lockfiles, resolve_eq_packageSet lockfiles, ?_⟩
  have hnd : (packageSet lockfiles).Nodup :=
    (sorted_packageSet lockfiles).nodup
  refine hnd.imp ?_
  rintro p q hne ⟨h1, h2, h3⟩
  exact hne (by cases p; cases q; simp_all)

/-- C2: the resolved sequence is sorted ascending by `(name, version)`:
every adjacent pair of the output is ordered by the lexicographic
`(name, version)` key. -/
theorem resolve_sorted_by_name_version (lockfiles : List Lockfile) :
    ∃ out, resolve_lockfile_packages lockfiles = Except.ok out ∧
      out.Chain' (fun p q => nvKey p ≤ nvKey q) := by
  refine ⟨packageSet lockfiles, resolve_eq_packageSet lockfiles, ?_⟩
  have hs : (packageSet lockfiles).Pairwise (fun p q => nvKey p ≤ nvKey q) :=
    (sorted_packageSet lockfiles).imp (fun h => nvKey_mono (le_of_lt h))
  exact hs.chain'

/-- C3: a record with an absent checksum never reaches the resolved output:
every record of the output has a present checksum. -/
theorem resolve_checksum_filter (lockfiles : List Lockfile) :
    ∃ out, resolve_lockfile_packages lockfiles = Except.ok out ∧
      ∀ p ∈ out, p.checksum.isSome := by
  refine ⟨packageSet lockfiles, resolve_eq_packageSet lockfiles, ?_⟩
  intro p hp
  rcases (mem_packageSet p lockfiles).mp hp with ⟨_, _, _, hc⟩
  exact hc

theorem packageSet_ext {l1 l2 : List Lockfile}
    (h : ∀ a : Package, a ∈ packageSet l1 ↔ a ∈ packageSet l2) :
    packageSet l1 = packageSet l2 := by
  have h1 := sorted_packageSet l1
  have h2 := sorted_packageSet l2
  exact List.eq_of_perm_of_sorted
    ((List.perm_ext_iff_of_nodup h1.nodup h2.nodup).mpr h)
    (h1.imp (fun h => le_of_lt h)) (h2.imp (fun h => le_of_lt h))

/-- C6: resolution is order-independent and idempotent as a merge:
permuting the documents does not change the result, repeating a document
does not change the result, and resolving the same input twice gives the
same result. -/
theorem resolve_merge_invariant (l1 l2 : List Lockfile) (d : Lockfile)
    (ls : List Lockfile) (hperm : l1.Perm l2) :
    resolve_lockfile_packages l1 = resolve_lockfile_packages l2 ∧
    resolve_lockfile_packages (d :: d :: ls) = resolve_lockfile_packages (d :: ls) ∧
    resolve_lockfile_packages l1 = resolve_lockfile_packages l1 := by
  refine ⟨?_, ?_, rfl⟩
  · rw [resolve_eq_packageSet, resolve_eq_packageSet]
    congr 1
    refine packageSet_ext (fun a => ?_)
    rw [mem_packageSet, mem_packageSet]
    constructor
    · rintro ⟨lf, hlf, hm, hc⟩
      exact ⟨lf, hperm.mem_iff.mp hlf, hm, hc⟩
    · rintro ⟨lf, hlf, hm, hc⟩
      exact ⟨lf, hperm.mem_iff.mpr hlf, hm, hc⟩
  · rw [resolve_eq_packageSet, resolve_eq_packageSet]
    congr 1
    refine packageSet_ext (fun a => ?_)
    rw [mem_packageSet, mem_packageSet]
    simp only [List.mem_cons]
    constructor
    · rintro ⟨lf, hlf, hm, hc⟩
      exact ⟨lf, by tauto, hm, hc⟩
    · rintro ⟨lf, hlf, hm, hc⟩
      exact ⟨lf, by tauto, hm, hc⟩

/-! ### Formatter lemmas -/

theorem str_foldl_append_shift (l : List String) :
    ∀ acc : String, l.foldl (fun r s => r ++ s) acc =
      acc ++ l.foldl (fun r s => r ++ s) "" := by
  induction l with
  | nil => intro acc; simp
  | cons a t ih =>
    intro acc
    rw [List.foldl_cons, List.foldl_cons, ih (acc ++ a), ih ("" ++ a),
      String.empty_append, String.append_assoc]

theorem str_join_cons (a : String) (t : List String) :
    String.join (a :: t) = a ++ String.join t := by
  rw [String.join, String.join, List.foldl_cons, str_foldl_append_shift,
    String.empty_append]

theorem format_foldl (f : Package → String → String) (ps : List Package) :
    ∀ acc : String,
      ps.foldl (fun output package =>
        match package.checksum with
        | some checksum => output ++ " \\\n" ++ f package checksum
        | none => output) acc
      = acc ++ String.join (ps.filterMap (fun package =>
          package.checksum.map (fun checksum => " \\\n" ++ f package checksum))) := by
  induction ps with
  | nil => intro acc; simp [String.join]
  | cons p t ih =>
    intro acc
    rcases hc : p.checksum with _ | c
    · rw [List.foldl_cons, List.filterMap_cons]
      simp only [hc, Option.map_none']
      exact ih acc
    · rw [List.foldl_cons, List.filterMap_cons]
      simp only [hc, Option.map_some']
      rw [ih, str_join_cons]
      simp [String.append_assoc]

/-- The formatter's output, written as header plus one joined continuation
line per checksummed package, in sequence order. -/
theorem format_cargo_crates_eq (packages : List Package) (mode : AlignmentMode) :
    format_cargo_crates packages mode =
      "cargo.crates" ++ String.join (packages.filterMap (fun package =>
        package.checksum.map (fun checksum => " \\\n" ++
          formatLine mode
            (if mode = AlignmentMode.Maxlen then maxlenWidths packages else (0, 0)).1
            (if mode = AlignmentMode.Maxlen then maxlenWidths packages else (0, 0)).2
            (if mode = AlignmentMode.Justify then package_max_width packages else 0)
            package checksum))) :=
  format_foldl
    (formatLine mode
      (if mode = AlignmentMode.Maxlen then maxlenWidths packages else (0, 0)).1
      (if mode = AlignmentMode.Maxlen then maxlenWidths packages else (0, 0)).2
      (if mode = AlignmentMode.Justify then package_max_width packages else 0))
    packages ("cargo.crates")

/-- C5: `format_cargo_crates` is a total function: for every sequence and
mode it returns a string; on the empty sequence exactly the header token,
and in general the header followed by one continuation line per
checksummed input package, in sequence order, packages without a checksum
contributing nothing. -/
theorem format_cargo_crates_total (packages : List Package) (mode : AlignmentMode) :
    format_cargo_crates [] mode = "cargo.crates" ∧
    format_cargo_crates packages mode =
      "cargo.crates" ++ String.join (packages.filterMap (fun package =>
        package.checksum.map (fun checksum => " \\\n" ++
          formatLine mode
            (if mode = AlignmentMode.Maxlen then maxlenWidths packages else (0, 0)).1
            (if mode = AlignmentMode.Maxlen then maxlenWidths packages else (0, 0)).2
            (if mode = AlignmentMode.Justify then package_max_width packages else 0)
            package checksum))) :=
  ⟨rfl, format_cargo_crates_eq packages mode⟩

theorem runmax_init_le (f : Package → Nat) (ps : List Package) :
    ∀ a : Nat, a ≤ ps.foldl (fun acc q => if f q > acc then f q else acc) a := by
  induction ps with
  | nil => intro a; simp
  | cons q t ih =>
    intro a
    rw [List.foldl_cons]
    refine le_trans ?_ (ih _)
    by_cases h : f q > a
    · rw [if_pos h]
      omega
    · rw [if_neg h]

theorem runmax_le (f : Package → Nat) (ps : List Package) :
    ∀ (a : Nat) (p : Package), p ∈ ps →
      f p ≤ ps.foldl (fun acc q => if f q > acc then f q else acc) a := by
  induction ps with
  | nil => simp
  | cons q t ih =>
    intro a p hp
    rw [List.foldl_cons]
    rcases List.mem_cons.mp hp with rfl | hp
    · refine le_trans ?_ (runmax_init_le f t _)
      by_cases h : f p > a
      · rw [if_pos h]
      · rw [if_neg h]
        omega
    · exact ih _ p hp

theorem runmax_attained (f : Package → Nat) (ps : List Package) :
    ∀ a : Nat, ps.foldl (fun acc q => if f q > acc then f q else acc) a = a ∨
      ∃ p ∈ ps, ps.foldl (fun acc q => if f q > acc then f q else acc) a = f p := by
  induction ps with
  | nil => intro a; exact Or.inl rfl
  | cons q t ih =>
    intro a
    rw [List.foldl_cons]
    by_cases h : f q > a
    · rw [if_pos h]
      rcases ih (f q) with h2 | ⟨p, hp, h2⟩
      · exact Or.inr ⟨q, List.mem_cons_self q t, h2⟩
      · exact Or.inr ⟨p, List.mem_cons_of_mem q hp, h2⟩
    · rw [if_neg h]
      rcases ih a with h2 | ⟨p, hp, h2⟩
      · exact Or.inl h2
      · exact Or.inr ⟨p, List.mem_cons_of_mem q hp, h2⟩

theorem maxlenWidths_eq (ps : List Package) :
    maxlenWidths ps =
      (ps.foldl (fun acc q => if q.name.length > acc then q.name.length else acc) 0,
       ps.foldl (fun acc q =>
         if (Version.to_string q.version).length > acc
         then (Version.to_string q.version).length else acc) 0) := by
  have aux : ∀ (l : List Package) (a b : Nat),
      l.foldl (fun w package =>
        let name_len := package.name.length
        let version_len := (Version.to_string package.version).length
        (if name_len > w.1 then name_len else w.1,
         if version_len > w.2 then version_len else w.2)) (a, b) =
      (l.foldl (fun acc q => if q.name.length > acc then q.name.length else acc) a,
       l.foldl (fun acc q =>
         if (Version.to_string q.version).length > acc
         then (Version.to_string q.version).length else acc) b) := by
    intro l
    induction l with
    | nil => intro a b; rfl
    | cons q t ih =>
      intro a b
      rw [List.foldl_cons, List.foldl_cons, List.foldl_cons]
      exact ih _ _
  exact aux ps 0 0

theorem padRight_length (s : String) (w : Nat) :
    (padRight s w).length = max s.length w := by
  simp only [padRight, String.length_append, String.length_mk, List.length_replicate]
  omega

theorem padLeft_length (s : String) (w : Nat) :
    (padLeft s w).length = max s.length w := by
  simp only [padLeft, String.length_append, String.length_mk, List.length_replicate]
  omega

theorem padLeft_self (s : String) : padLeft s s.length = s := by
  rw [padLeft, Nat.sub_self, List.replicate_zero]
  exact String.empty_append s

theorem padRight_no_truncation (s : String) (w : Nat) :
    ∃ t, padRight s w = s ++ t :=
  ⟨String.mk (List.replicate (w - s.length) ' '), rfl⟩

/-- C7: in Maxlen mode the first pass computes the maximum name length and
maximum version-string length over the whole sequence, and every
continuation line left-aligns its name field to exactly that maximum name
width and its version field to exactly that maximum version width. -/
theorem maxlen_alignment (packages : List Package) :
    format_cargo_crates packages AlignmentMode.Maxlen =
      "cargo.crates" ++ String.join (packages.filterMap (fun package =>
        package.checksum.map (fun checksum => " \\\n" ++
          ("    " ++ padRight package.name (maxlenWidths packages).1 ++ "  " ++
            padRight (Version.to_string package.version) (maxlenWidths packages).2 ++
            "  " ++ checksum)))) ∧
    (∀ p ∈ packages, p.name.length ≤ (maxlenWidths packages).1 ∧
      (Version.to_string p.version).length ≤ (maxlenWidths packages).2) ∧
    ((maxlenWidths packages).1 = 0 ∨
      ∃ p ∈ packages, (maxlenWidths packages).1 = p.name.length) ∧
    ((maxlenWidths packages).2 = 0 ∨
      ∃ p ∈ packages, (maxlenWidths packages).2 = (Version.to_string p.version).length) ∧
    (∀ p ∈ packages,
      (padRight p.name (maxlenWidths packages).1).length = (maxlenWidths packages).1 ∧
      (padRight (Version.to_string p.version) (maxlenWidths packages).2).length =
        (maxlenWidths packages).2) := by
  have hb : ∀ p ∈ packages, p.name.length ≤ (maxlenWidths packages).1 ∧
      (Version.to_string p.version).length ≤ (maxlenWidths packages).2 := by
    intro p hp
    rw [maxlenWidths_eq]
    exact ⟨runmax_le (fun q => q.name.length) packages 0 p hp,
      runmax_le (fun q => (Version.to_string q.version).length) packages 0 p hp⟩
  refine ⟨?_, hb, ?_, ?_, ?_⟩
  · rw [format_cargo_crates_eq]
    simp [formatLine]
  · rw [maxlenWidths_eq]
    exact runmax_attained (fun q => q.name.length) packages 0
  · rw [maxlenWidths_eq]
    exact runmax_attained (fun q => (Version.to_string q.version).length) packages 0
  · intro p hp
    obtain ⟨h1, h2⟩ := hb p hp
    rw [padRight_length, padRight_length]
    exact ⟨max_eq_right h1, max_eq_right h2⟩

/-- C8: in Normal mode each continuation line renders the name left-padded
without truncation to the fixed width 28 and the version right-aligned to
the fixed width 8, independently of the content lengths of any package in
the sequence. -/
theorem normal_alignment (packages : List Package) :
    format_cargo_crates packages AlignmentMode.Normal =
      "cargo.crates" ++ String.join (packages.filterMap (fun package =>
        package.checksum.map (fun checksum => " \\\n" ++
          ("    " ++ padRight package.name 28 ++ "  " ++
            padLeft (Version.to_string package.version) 8 ++ "  " ++ checksum)))) ∧
    (∀ p : Package, (padRight p.name 28).length = max p.name.length 28 ∧
      (∃ t, padRight p.name 28 = p.name ++ t) ∧
      (padLeft (Version.to_string p.version) 8).length =
        max (Version.to_string p.version).length 8) ∧
    (∀ (w1 w2 w3 w1' w2' w3' : Nat) (p : Package) (c : String),
      formatLine AlignmentMode.Normal w1 w2 w3 p c =
        formatLine AlignmentMode.Normal w1' w2' w3' p c) := by
  refine ⟨?_, ?_, ?_⟩
  · rw [format_cargo_crates_eq]
    simp [formatLine]
  · intro p
    exact ⟨padRight_length p.name 28, padRight_no_truncation p.name 28,
      padLeft_length (Version.to_string p.version) 8⟩
  · intro w1 w2 w3 w1' w2' w3' p c
    rfl

/-- C4: in Justify mode every continuation line of a checksummed package
uses the gap `package_max_width − (len name + len version) + 5`, so that
`len name + gap + len version` equals the constant
`package_max_width + 5` on every line, and the version is right-aligned
within its own length, which changes nothing. -/
theorem justify_alignment (packages : List Package) (p : Package) (c : String)
    (hp : p ∈ packages) (hc : p.checksum = some c) :
    format_cargo_crates packages AlignmentMode.Justify =
      "cargo.crates" ++ String.join (packages.filterMap (fun package =>
        package.checksum.map (fun checksum => " \\\n" ++
          ("    " ++ package.name ++
            padRight (" ") (package_max_width packages - package.name.length -
              (Version.to_string package.version).length + JUSTIFIED_BASE_WIDTH) ++
            padLeft (Version.to_string package.version)
              (Version.to_string package.version).length ++
            "  " ++ checksum)))) ∧
    padLeft (Version.to_string p.version) (Version.to_string p.version).length =
      Version.to_string p.version ∧
    (padRight (" ") (package_max_width packages - p.name.length -
        (Version.to_string p.version).length + JUSTIFIED_BASE_WIDTH)).length =
      package_max_width packages - p.name.length -
        (Version.to_string p.version).length + JUSTIFIED_BASE_WIDTH ∧
    p.name.length +
        (package_max_width packages - p.name.length -
          (Version.to_string p.version).length + JUSTIFIED_BASE_WIDTH) +
        (Version.to_string p.version).length =
      package_max_width packages + JUSTIFIED_BASE_WIDTH := by
  have hb : p.name.length + (Version.to_string p.version).length ≤
      package_max_width packages :=
    runmax_le (fun q => q.name.length + (Version.to_string q.version).length)
      packages 0 p hp
  refine ⟨?_, padLeft_self _, ?_, ?_⟩
  · rw [format_cargo_crates_eq]
    simp [formatLine]
  · rw [padRight_length]
    have h1 : (" " : String).length = 1 := rfl
    rw [h1]
    simp only [JUSTIFIED_BASE_WIDTH]
    omega
  · omega

/-- C10: the Justify-mode gap subtraction never underflows: for every
package of the sequence its combined name+version length is bounded by
`package_max_width` of the same sequence, the natural-number gap agrees
with the integer-arithmetic value, and the gap is at least the base
padding 5. -/
theorem justify_no_underflow (packages : List Package) (p : Package) (hp : p ∈ packages) :
    p.name.length + (Version.to_string p.version).length ≤ package_max_width packages ∧
    ((package_max_width packages : Int) - (p.name.length : Int) -
        ((Version.to_string p.version).length : Int) + (JUSTIFIED_BASE_WIDTH : Int) =
      ((package_max_width packages - p.name.length -
          (Version.to_string p.version).length + JUSTIFIED_BASE_WIDTH : Nat) : Int)) ∧
    JUSTIFIED_BASE_WIDTH ≤ package_max_width packages - p.name.length -
        (Version.to_string p.version).length + JUSTIFIED_BASE_WIDTH := by
  have hb : p.name.length + (Version.to_string p.version).length ≤
      package_max_width packages :=
    runmax_le (fun q => q.name.length + (Version.to_string q.version).length)
      packages 0 p hp
  refine ⟨hb, ?_, ?_⟩ <;> omega

/-! ### Crate-specifier lemmas -/

theorem splitOnChar_ne_nil (c : Char) (l : List Char) : splitOnChar c l ≠ [] := by
  induction l with
  | nil => simp [splitOnChar]
  | cons a t ih =>
    simp only [splitOnChar]
    by_cases h : a = c
    · simp [h]
    · rw [if_neg h]
      rcases hh : splitOnChar c t with _ | ⟨x, xs⟩
      · simp
      · simp

theorem splitOnChar_two_iff (c : Char) (l : List Char) :
    2 ≤ (splitOnChar c l).length ↔ c ∈ l := by
  induction l with
  | nil => simp [splitOnChar]
  | cons a t ih =>
    simp only [splitOnChar, List.mem_cons]
    by_cases h : a = c
    · rw [if_pos h]
      constructor
      · intro _
        exact Or.inl h.symm
      · intro _
        rcases hh : splitOnChar c t with _ | ⟨x, xs⟩
        · exact absurd hh (splitOnChar_ne_nil c t)
        · simp [hh]
    · rw [if_neg h]
      rcases hh : splitOnChar c t with _ | ⟨x, xs⟩
      · exact absurd hh (splitOnChar_ne_nil c t)
      · rw [hh] at ih
        constructor
        · intro hlen
          refine Or.inr (ih.mp ?_)
          simpa using hlen
        · rintro (rfl | hmem)
          · exact absurd rfl h
          · simpa using ih.mpr hmem


/-- C9: the remote-lockfile path fails with the malformed-specifier error
`Error.Spec` (carrying the specifier itself) exactly when the specifier
contains no `@` separator; when an `@` is present, the part before the
first `@` and the part between the first and second `@` are passed to the
fetch collaborator. -/
theorem crates_io_spec_error (fetch : String → String → Except Error Lockfile)
    (crate_spec : String)
    (hfetch : ∀ n v s, fetch n v ≠ Except.error (Error.Spec s)) :
    ((∃ s, lockfile_from_crates_io fetch crate_spec = Except.error (Error.Spec s)) ↔
      ¬ ('@' ∈ crate_spec.data)) ∧
    (¬ ('@' ∈ crate_spec.data) →
      lockfile_from_crates_io fetch crate_spec = Except.error (Error.Spec crate_spec)) ∧
    (('@' ∈ crate_spec.data) →
      ∃ h : 2 ≤ (splitOnChar ('@') crate_spec.data).length,
        lockfile_from_crates_io fetch crate_spec =
          fetch (String.mk ((splitOnChar ('@') crate_spec.data).get ⟨0, by omega⟩))
            (String.mk ((splitOnChar ('@') crate_spec.data).get ⟨1, h⟩))) := by
  by_cases hat : '@' ∈ crate_spec.data
  · have hlen : 2 ≤ (splitOnChar ('@') crate_spec.data).length :=
      (splitOnChar_two_iff '@' crate_spec.data).mpr hat
    have heq : lockfile_from_crates_io fetch crate_spec =
        fetch (String.mk ((splitOnChar ('@') crate_spec.data).get ⟨0, by omega⟩))
          (String.mk ((splitOnChar ('@') crate_spec.data).get ⟨1, hlen⟩)) := by
      rw [lockfile_from_crates_io]
      rw [dif_pos hlen]
    refine ⟨?_, fun hno => absurd hat hno, fun _ => ⟨hlen, heq⟩⟩
    constructor
    · rintro ⟨s, hs⟩
      rw [heq] at hs
      exact absurd hs (hfetch _ _ s)
    · intro hno
      exact absurd hat hno
  · have hlen : ¬ 2 ≤ (splitOnChar ('@') crate_spec.data).length := by
      rw [splitOnChar_two_iff]
      exact hat
    have heq : lockfile_from_crates_io fetch crate_spec =
        Except.error (Error.Spec crate_spec) := by
      rw [lockfile_from_crates_io]
      rw [dif_neg hlen]
    exact ⟨⟨fun _ => hat, fun _ => ⟨crate_spec, heq⟩⟩, fun _ => heq,
      fun hcontra => absurd hcontra hat⟩

/-- Witness for C4: two packages with combined name+version lengths 8 and
15; the computed gap for the first is `15 - 8 + 5 = 12`. -/
theorem justify_alignment_witness :
    (Package.mk ("abc") (Version.mk 1 2 3) (some ("deadbeef")) ∈
      [Package.mk ("abc") (Version.mk 1 2 3) (some ("deadbeef")),
       Package.mk ("longername") (Version.mk 1 2 3) (some ("cafebabe"))]) ∧
    (Package.mk ("abc") (Version.mk 1 2 3) (some ("deadbeef"))).checksum =
      some ("deadbeef") ∧
    package_max_width
        [Package.mk ("abc") (Version.mk 1 2 3) (some ("deadbeef")),
         Package.mk ("longername") (Version.mk 1 2 3) (some ("cafebabe"))] -
        (Package.mk ("abc") (Version.mk 1 2 3) (some ("deadbeef"))).name.length -
        (Version.to_string (Version.mk 1 2 3)).length + JUSTIFIED_BASE_WIDTH = 12 ∧
    (format_cargo_crates
        [Package.mk ("abc") (Version.mk 1 2 3) (some ("deadbeef")),
         Package.mk ("longername") (Version.mk 1 2 3) (some ("cafebabe"))]
        AlignmentMode.Justify =
      "cargo.crates" ++ String.join
        (([Package.mk ("abc") (Version.mk 1 2 3) (some ("deadbeef")),
           Package.mk ("longername") (Version.mk 1 2 3) (some ("cafebabe"))]).filterMap
          (fun package => package.checksum.map (fun checksum => " \\\n" ++
            ("    " ++ package.name ++
              padRight (" ") (package_max_width
                  [Package.mk ("abc") (Version.mk 1 2 3) (some ("deadbeef")),
                   Package.mk ("longername") (Version.mk 1 2 3) (some ("cafebabe"))] -
                package.name.length -
                (Version.to_string package.version).length + JUSTIFIED_BASE_WIDTH) ++
              padLeft (Version.to_string package.version)
                (Version.to_string package.version).length ++
              "  " ++ checksum)))) ∧
    padLeft (Version.to_string (Package.mk ("abc") (Version.mk 1 2 3)
        (some ("deadbeef"))).version)
        (Version.to_string (Package.mk ("abc") (Version.mk 1 2 3)
          (some ("deadbeef"))).version).length =
      Version.to_string (Package.mk ("abc") (Version.mk 1 2 3)
        (some ("deadbeef"))).version ∧
    (padRight (" ") (package_max_width
          [Package.mk ("abc") (Version.mk 1 2 3) (some ("deadbeef")),
           Package.mk ("longername") (Version.mk 1 2 3) (some ("cafebabe"))] -
        (Package.mk ("abc") (Version.mk 1 2 3) (some ("deadbeef"))).name.length -
        (Version.to_string (Package.mk ("abc") (Version.mk 1 2 3)
          (some ("deadbeef"))).version).length + JUSTIFIED_BASE_WIDTH)).length =
      package_max_width
          [Package.mk ("abc") (Version.mk 1 2 3) (some ("deadbeef")),
           Package.mk ("longername") (Version.mk 1 2 3) (some ("cafebabe"))] -
        (Package.mk ("abc") (Version.mk 1 2 3) (some ("deadbeef"))).name.length -
        (Version.to_string (Package.mk ("abc") (Version.mk 1 2 3)
          (some ("deadbeef"))).version).length + JUSTIFIED_BASE_WIDTH ∧
    (Package.mk ("abc") (Version.mk 1 2 3) (some ("deadbeef"))).name.length +
        (package_max_width
            [Package.mk ("abc") (Version.mk 1 2 3) (some ("deadbeef")),
             Package.mk ("longername") (Version.mk 1 2 3) (some ("cafebabe"))] -
          (Package.mk ("abc") (Version.mk 1 2 3) (some ("deadbeef"))).name.length -
          (Version.to_string (Package.mk ("abc") (Version.mk 1 2 3)
            (some ("deadbeef"))).version).length + JUSTIFIED_BASE_WIDTH) +
        (Version.to_string (Package.mk ("abc") (Version.mk 1 2 3)
          (some ("deadbeef"))).version).length =
      package_max_width
          [Package.mk ("abc") (Version.mk 1 2 3) (some ("deadbeef")),
           Package.mk ("longername") (Version.mk 1 2 3) (some ("cafebabe"))] +
        JUSTIFIED_BASE_WIDTH) :=
  ⟨by decide, rfl, by decide,
    justify_alignment
      [Package.mk ("abc") (Version.mk 1 2 3) (some ("deadbeef")),
       Package.mk ("longername") (Version.mk 1 2 3) (some ("cafebabe"))]
      (Package.mk ("abc") (Version.mk 1 2 3) (some ("deadbeef"))) ("deadbeef")
      (by decide) rfl⟩

/-- Witness for C6: a concrete permutation of two documents and a
concrete repeated document. -/
theorem resolve_merge_invariant_witness :
    ([Lockfile.mk [Package.mk ("abc") (Version.mk 1 2 3) (some ("x"))],
      Lockfile.mk [Package.mk ("zzz") (Version.mk 0 1 0) none]] : List Lockfile).Perm
      [Lockfile.mk [Package.mk ("zzz") (Version.mk 0 1 0) none],
       Lockfile.mk [Package.mk ("abc") (Version.mk 1 2 3) (some ("x"))]] ∧
    (resolve_lockfile_packages
        [Lockfile.mk [Package.mk ("abc") (Version.mk 1 2 3) (some ("x"))],
         Lockfile.mk [Package.mk ("zzz") (Version.mk 0 1 0) none]] =
      resolve_lockfile_packages
        [Lockfile.mk [Package.mk ("zzz") (Version.mk 0 1 0) none],
         Lockfile.mk [Package.mk ("abc") (Version.mk 1 2 3) (some ("x"))]] ∧
    resolve_lockfile_packages
        (Lockfile.mk [Package.mk ("abc") (Version.mk 1 2 3) (some ("x"))] ::
          Lockfile.mk [Package.mk ("abc") (Version.mk 1 2 3) (some ("x"))] ::
          [Lockfile.mk [Package.mk ("zzz") (Version.mk 0 1 0) none]]) =
      resolve_lockfile_packages
        (Lockfile.mk [Package.mk ("abc") (Version.mk 1 2 3) (some ("x"))] ::
          [Lockfile.mk [Package.mk ("zzz") (Version.mk 0 1 0) none]]) ∧
    resolve_lockfile_packages
        [Lockfile.mk [Package.mk ("abc") (Version.mk 1 2 3) (some ("x"))],
         Lockfile.mk [Package.mk ("zzz") (Version.mk 0 1 0) none]] =
      resolve_lockfile_packages
        [Lockfile.mk [Package.mk ("abc") (Version.mk 1 2 3) (some ("x"))],
         Lockfile.mk [Package.mk ("zzz") (Version.mk 0 1 0) none]]) :=
  ⟨by decide,
    resolve_merge_invariant
      [Lockfile.mk [Package.mk ("abc") (Version.mk 1 2 3) (some ("x"))],
       Lockfile.mk [Package.mk ("zzz") (Version.mk 0 1 0) none]]
      [Lockfile.mk [Package.mk ("zzz") (Version.mk 0 1 0) none],
       Lockfile.mk [Package.mk ("abc") (Version.mk 1 2 3) (some ("x"))]]
      (Lockfile.mk [Package.mk ("abc") (Version.mk 1 2 3) (some ("x"))])
      [Lockfile.mk [Package.mk ("zzz") (Version.mk 0 1 0) none]]
      (by decide)⟩

/-- Witness for C9: a fetch collaborator that never reports a specifier
error, one well-formed specifier and the fetch it dispatches to. -/
theorem crates_io_spec_error_witness :
    (∀ n v s, (fun (_ : String) (_ : String) =>
        Except.error (ε := Error) (α := Lockfile) Error.MissingLockfile) n v ≠
      Except.error (Error.Spec s)) ∧
    (((∃ s, lockfile_from_crates_io
          (fun _ _ => Except.error Error.MissingLockfile) ("serde@1.0.0") =
        Except.error (Error.Spec s)) ↔
      ¬ ('@' ∈ ("serde@1.0.0" : String).data)) ∧
    (¬ ('@' ∈ ("serde@1.0.0" : String).data) →
      lockfile_from_crates_io
          (fun _ _ => Except.error Error.MissingLockfile) ("serde@1.0.0") =
        Except.error (Error.Spec ("serde@1.0.0"))) ∧
    (('@' ∈ ("serde@1.0.0" : String).data) →
      ∃ h : 2 ≤ (splitOnChar ('@') ("serde@1.0.0" : String).data).length,
        lockfile_from_crates_io
            (fun _ _ => Except.error Error.MissingLockfile) ("serde@1.0.0") =
          (fun (_ : String) (_ : String) =>
              Except.error (ε := Error) (α := Lockfile) Error.MissingLockfile)
            (String.mk ((splitOnChar ('@') ("serde@1.0.0" : String).data).get
              ⟨0, by decide⟩))
            (String.mk ((splitOnChar ('@') ("serde@1.0.0" : String).data).get
              ⟨1, h⟩)))) :=
  ⟨fun n v s h => by simp at h,
    crates_io_spec_error
      (fun _ _ => Except.error Error.MissingLockfile) ("serde@1.0.0")
      (fun n v s h => by simp at h)⟩

/-- Witness for C10: the concrete two-package Justify sequence; the gap
arithmetic of its first package does not underflow. -/
theorem justify_no_underflow_witness :
    (Package.mk ("abc") (Version.mk 1 2 3) (some ("deadbeef")) ∈
      [Package.mk ("abc") (Version.mk 1 2 3) (some ("deadbeef")),
       Package.mk ("longername") (Version.mk 1 2 3) (some ("cafebabe"))]) ∧
    ((Package.mk ("abc") (Version.mk 1 2 3) (some ("deadbeef"))).name.length +
        (Version.to_string (Package.mk ("abc") (Version.mk 1 2 3)
          (some ("deadbeef"))).version).length ≤
      package_max_width
        [Package.mk ("abc") (Version.mk 1 2 3) (some ("deadbeef")),
         Package.mk ("longername") (Version.mk 1 2 3) (some ("cafebabe"))] ∧
    ((package_max_width
          [Package.mk ("abc") (Version.mk 1 2 3) (some ("deadbeef")),
           Package.mk ("longername") (Version.mk 1 2 3) (some ("cafebabe"))] : Int) -
        ((Package.mk ("abc") (Version.mk 1 2 3)
          (some ("deadbeef"))).name.length : Int) -
        ((Version.to_string (Package.mk ("abc") (Version.mk 1 2 3)
          (some ("deadbeef"))).version).length : Int) + (JUSTIFIED_BASE_WIDTH : Int) =
      ((package_max_width
            [Package.mk ("abc") (Version.mk 1 2 3) (some ("deadbeef")),
             Package.mk ("longername") (Version.mk 1 2 3) (some ("cafebabe"))] -
          (Package.mk ("abc") (Version.mk 1 2 3) (some ("deadbeef"))).name.length -
          (Version.to_string (Package.mk ("abc") (Version.mk 1 2 3)
            (some ("deadbeef"))).version).length + JUSTIFIED_BASE_WIDTH : Nat) : Int)) ∧
    JUSTIFIED_BASE_WIDTH ≤ package_max_width
          [Package.mk ("abc") (Version.mk 1 2 3) (some ("deadbeef")),
           Package.mk ("longername") (Version.mk 1 2 3) (some ("cafebabe"))] -
        (Package.mk ("abc") (Version.mk 1 2 3) (some ("deadbeef"))).name.length -
        (Version.to_string (Package.mk ("abc") (Version.mk 1 2 3)
          (some ("deadbeef"))).version).length + JUSTIFIED_BASE_WIDTH) :=
  ⟨by decide,
    justify_no_underflow
      [Package.mk ("abc") (Version.mk 1 2 3) (some ("deadbeef")),
       Package.mk ("longername") (Version.mk 1 2 3) (some ("cafebabe"))]
      (Package.mk ("abc") (Version.mk 1 2 3) (some ("deadbeef"))) (by decide)⟩

end Cargo2port
